import Mathlib

/-!
Verification development for the ptimg reconstruction core of `bbb.sc`
(`src/main.rs`): the instruction-string parser (`parse`, built from nom's
`alpha1`, `digit1`, `tag`, `separated_pair`, `map_res`, `all_consuming`)
and the compositing engine (`Replacer::apply` over `image::imageops::crop_imm`
and `image::imageops::replace`, driven by `Ptimg::restore`).

Pixels carry four channels (RGBA); machine integers are modelled as `Nat`/`Int`
with the explicit range checks that `str::parse::<u32>` / `str::parse::<i64>`
perform.  A `panic!` in the Rust code is modelled by the `Outcome.aborted`
constructor; the code has no value-level error channel at all.
-/

/-- Four-channel RGBA pixel, each channel a `u8` value (modelled as `Nat`). -/
abbrev Rgba := Nat × Nat × Nat × Nat

/-- The all-zero, fully transparent pixel `Rgba([0, 0, 0, 0])`. -/
def rgbaZero : Rgba := (0, 0, 0, 0)

/-- Pixel buffer: width, height, and the pixel at each coordinate.
Models `image::RgbaImage` / `image::DynamicImage` viewed through
`GenericImageView`. -/
structure Img (α : Type) where
  width : Nat
  height : Nat
  pix : Nat → Nat → α

/-- `image::RgbaImage::new(w, h)`: a `w × h` canvas with every pixel zero. -/
def Img.blank (w h : Nat) : Img Rgba :=
  { width := w, height := h, pix := fun _ _ => rgbaZero }

/-- `Vec2<T>` from `src/main.rs`. -/
structure Vec2 (α : Type) where
  x : α
  y : α
deriving DecidableEq

/-- `Replacer` from `src/main.rs`: crop size, crop origin in the source,
and signed destination placement. -/
structure Replacer where
  size : Vec2 Nat
  src : Vec2 Nat
  dst : Vec2 Int
deriving DecidableEq

/-- Outcome of running a piece of Rust code that can `panic!`: either a
value, or an abort of the whole process.  The code under verification has
no value-level error type; every failure path is a panic. -/
inductive Outcome (α : Type) where
  | ok : α → Outcome α
  | aborted : Outcome α
deriving DecidableEq

/-- `Outcome.isOk`: whether the computation produced a value. -/
def Outcome.isOk {α : Type} : Outcome α → Bool
  | .ok _ => true
  | .aborted => false

/-! ### The nom-based instruction parser

nom parsers over `&str` are modelled as `List Char → Option (List Char × α)`
returning the unconsumed input and the parsed value; `none` is a nom `Err`. -/

/-- nom `digit1`: consumes one or more ASCII decimal digits. -/
def digit1 (s : List Char) : Option (List Char × List Char) :=
  if s.takeWhile Char.isDigit = [] then none
  else some (s.dropWhile Char.isDigit, s.takeWhile Char.isDigit)

/-- nom `alpha1`: consumes one or more ASCII alphabetic characters. -/
def alpha1 (s : List Char) : Option (List Char × List Char) :=
  if s.takeWhile Char.isAlpha = [] then none
  else some (s.dropWhile Char.isAlpha, s.takeWhile Char.isAlpha)

/-- Value of a string of decimal digits, as `str::parse` computes it. -/
def digitsToNat (l : List Char) : Nat :=
  l.foldl (fun acc c => acc * 10 + (c.toNat - 48)) 0

/-- `num::<u32>` from `src/main.rs`: `map_res(digit1, |s| s.parse::<u32>())`.
`str::parse::<u32>` fails (and so the whole parser fails) when the digit
string's value exceeds `u32::MAX`. -/
def numU32 (s : List Char) : Option (List Char × Nat) :=
  match digit1 s with
  | none => none
  | some (r, ds) =>
    if digitsToNat ds < 2 ^ 32 then some (r, digitsToNat ds) else none

/-- `num::<i64>` from `src/main.rs`: `map_res(digit1, |s| s.parse::<i64>())`.
`digit1` admits no sign, so only non-negative values up to `i64::MAX` parse. -/
def numI64 (s : List Char) : Option (List Char × Int) :=
  match digit1 s with
  | none => none
  | some (r, ds) =>
    if digitsToNat ds < 2 ^ 63 then some (r, (digitsToNat ds : Int)) else none

/-- nom `tag` for the single-character separators `","`, `"+"`, `">"`, `":"`. -/
def tagCh (c : Char) (s : List Char) : Option (List Char × Unit) :=
  match s with
  | [] => none
  | d :: r => if d = c then some (r, ()) else none

/-- nom `separated_pair(p, tag(c), q)`. -/
def sepPair {α β : Type} (p : List Char → Option (List Char × α)) (c : Char)
    (q : List Char → Option (List Char × β)) (s : List Char) :
    Option (List Char × (α × β)) :=
  match p s with
  | none => none
  | some (s1, a) =>
    match tagCh c s1 with
    | none => none
    | some (s2, _) =>
      match q s2 with
      | none => none
      | some (s3, b) => some (s3, (a, b))

/-- `vec::<u32>` from `src/main.rs`:
`map(separated_pair(num, tag(","), num), |(l, r)| Vec2::new(l, r))`. -/
def vecU32 (s : List Char) : Option (List Char × Vec2 Nat) :=
  match sepPair numU32 ',' numU32 s with
  | none => none
  | some (r, (a, b)) => some (r, ⟨a, b⟩)

/-- `vec::<i64>` from `src/main.rs`. -/
def vecI64 (s : List Char) : Option (List Char × Vec2 Int) :=
  match sepPair numI64 ',' numI64 s with
  | none => none
  | some (r, (a, b)) => some (r, ⟨a, b⟩)

/-- `let src = separated_pair(vec, tag("+"), vec)` from `parse`. -/
def srcPart (s : List Char) : Option (List Char × (Vec2 Nat × Vec2 Nat)) :=
  sepPair vecU32 '+' vecU32 s

/-- `let bdy = separated_pair(src, tag(">"), vec)` from `parse`. -/
def bodyPart (s : List Char) :
    Option (List Char × ((Vec2 Nat × Vec2 Nat) × Vec2 Int)) :=
  sepPair srcPart '>' vecI64 s

/-- `let whl = separated_pair(alpha1, tag(":"), bdy)` from `parse`. -/
def wholeInstr (s : List Char) :
    Option (List Char × (List Char × ((Vec2 Nat × Vec2 Nat) × Vec2 Int))) :=
  sepPair alpha1 ':' bodyPart s

/-- `parse` from `src/main.rs`.  `all_consuming(whl)` succeeds exactly when
`whl` succeeds with empty rest; the `Ok` arm destructures the result as
`(key, ((src, size), dst))` — binding the pair right after `":"` to `src`
and the pair after `"+"` to `size` — and builds `Replacer::new(size, src,
dst)`.  Both the `Err` arm (`panic!`) and the impossible non-empty-rest
`Ok` arm (`unreachable!`) abort the process. -/
def parse (s : List Char) : Outcome (List Char × Replacer) :=
  match wholeInstr s with
  | some ([], (key, ((a, b), d))) => .ok (key, { size := b, src := a, dst := d })
  | _ => .aborted

/-- Characters of a string literal. -/
def chars (s : String) : List Char := s.toList

/-! ### The compositing engine -/

/-- `image::imageops::crop_imm(src, x, y, w, h)` together with the library's
`crop_dimms` clamping: the crop origin is clamped into the image and the
crop extent is clipped to what remains; the resulting sub-view reads pixel
`(a, b)` at `(x' + a, y' + b)` of the underlying image.  (Library code, not
under `src/`; modelled from the image crate's `crop_dimms`.) -/
def crop_imm {α : Type} (img : Img α) (x y w h : Nat) : Img α :=
  { width := min w (img.width - min x img.width)
  , height := min h (img.height - min y img.height)
  , pix := fun a b => img.pix (min x img.width + a) (min y img.height + b) }

/-- `clamp(v, 0, hi)` on `i64`, as a `Nat`. -/
def clipLo (v : Int) (hi : Nat) : Nat := (min v (hi : Int)).toNat

/-- Length of the overlapping coordinate range along one axis when a buffer
of length `tlen` is placed at signed offset `off` over a buffer of length
`blen` (from the image crate's `overlay_bounds_ext`). -/
def rangeLen (off : Int) (tlen blen : Nat) : Nat :=
  clipLo (off + (tlen : Int)) blen - clipLo off blen

/-- First coordinate of the top buffer that lands inside the bottom buffer
along one axis (from `overlay_bounds_ext`). -/
def topOrigin (off : Int) (blen : Nat) : Nat :=
  ((clipLo off blen : Int) - off).toNat

/-- One axis of the write range of `replace`: bottom coordinate `a` is
touched iff it lies in `[clipLo off blen, clipLo off blen + rangeLen)`. -/
abbrev inRange (off : Int) (tlen blen : Nat) (a : Nat) : Prop :=
  clipLo off blen ≤ a ∧ a < clipLo off blen + rangeLen off tlen blen

/-- `image::imageops::replace(bottom, top, x, y)`: net effect of its write
loop — every bottom pixel in the jointly clipped range receives the
corresponding top pixel, all other pixels are untouched, and the bottom
buffer's dimensions never change.  (Library code, not under `src/`;
modelled from the image crate's `replace` / `overlay_bounds_ext`.) -/
def replace {α : Type} (bottom top : Img α) (x y : Int) : Img α :=
  { width := bottom.width
  , height := bottom.height
  , pix := fun a b =>
      if inRange x top.width bottom.width a ∧ inRange y top.height bottom.height b
      then top.pix (topOrigin x bottom.width + (a - clipLo x bottom.width))
                   (topOrigin y bottom.height + (b - clipLo y bottom.height))
      else bottom.pix a b }

/-- `Replacer::apply` from `src/main.rs`: crop the source at `self.src`
with extent `self.size`, then `replace` it into `dst` at `self.dst`. -/
def Replacer.apply {α : Type} (rep : Replacer) (src dst : Img α) : Img α :=
  replace dst (crop_imm src rep.src.x rep.src.y rep.size.x rep.size.y)
    rep.dst.x rep.dst.y

/-! ### Descriptor model and `Ptimg::restore` -/

/-- `Resource` from `src/main.rs` (deserialized, otherwise unused). -/
structure Resource where
  src : List Char
  width : Nat
  height : Nat
deriving DecidableEq

/-- `View` from `src/main.rs`. -/
structure View where
  width : Nat
  height : Nat
  coords : List (List Char)
deriving DecidableEq

/-- `Ptimg` from `src/main.rs`; the `HashMap` of resources is modelled as
an association list. -/
structure Ptimg where
  ptimg_version : Nat
  resources : List (List Char × Resource)
  views : List View

/-- One step of the instruction loop in `Ptimg::restore`: parse the
instruction string and apply it to the canvas; a parse panic aborts. -/
def restoreStep (map : List Char → Img Rgba) (acc : Outcome (Img Rgba))
    (s : List Char) : Outcome (Img Rgba) :=
  match acc with
  | .aborted => .aborted
  | .ok d =>
    match parse s with
    | .ok (key, rep) => .ok (rep.apply (map key) d)
    | .aborted => .aborted

/-- The per-view body of `Ptimg::restore`: allocate a fresh zeroed canvas
of the view's declared dimensions, then apply each instruction in list
order. -/
def View.restoreOne (v : View) (map : List Char → Img Rgba) :
    Outcome (Img Rgba) :=
  v.coords.foldl (restoreStep map) (.ok (Img.blank v.width v.height))

/-- One step of collecting the per-view canvases of `Ptimg::restore` into
a `Vec`; a panic while reconstructing any view aborts the whole call. -/
def collectStep (map : List Char → Img Rgba) (v : View)
    (acc : Outcome (List (Img Rgba))) : Outcome (List (Img Rgba)) :=
  match v.restoreOne map with
  | .aborted => .aborted
  | .ok d =>
    match acc with
    | .aborted => .aborted
    | .ok l => .ok (d :: l)

/-- `Ptimg::restore`: one canvas per view, collected in view-list order. -/
def Ptimg.restore (p : Ptimg) (map : List Char → Img Rgba) :
    Outcome (List (Img Rgba)) :=
  p.views.foldr (collectStep map) (.ok [])

/-! ### Facts about the parser -/

/-- Every signed number `numI64` produces comes from bare digits, hence is
non-negative. -/
theorem numI64_nonneg {s r : List Char} {v : Int} (h : numI64 s = some (r, v)) :
    0 ≤ v := by
  unfold numI64 at h
  split at h
  · exact absurd h (by simp)
  · split at h
    · simp only [Option.some.injEq, Prod.mk.injEq] at h
      obtain ⟨-, hv⟩ := h
      exact hv ▸ Int.natCast_nonneg _
    · exact absurd h (by simp)

/-- Both components of a parsed `Vec2<i64>` are non-negative. -/
theorem vecI64_nonneg {s r : List Char} {w : Vec2 Int}
    (h : vecI64 s = some (r, w)) : 0 ≤ w.x ∧ 0 ≤ w.y := by
  unfold vecI64 at h
  split at h
  · exact absurd h (by simp)
  · rename_i o r' ab heq
    unfold sepPair at heq
    split at heq
    · exact absurd heq (by simp)
    · rename_i o1 s1 a1 h1
      split at heq
      · exact absurd heq (by simp)
      · split at heq
        · exact absurd heq (by simp)
        · rename_i o2 s2 u h2 o3 s3 b3 h3
          simp only [Option.some.injEq, Prod.mk.injEq] at heq h
          obtain ⟨-, ha, hb⟩ := heq
          obtain ⟨-, hw⟩ := h
          subst hw
          exact ⟨ha ▸ numI64_nonneg h1, hb ▸ numI64_nonneg h3⟩

/-- Claim C1 (counterexample): the claim says the pair immediately after
`":"` is the copy size, so parsing `"a:1,2+3,4>5,6"` would have to yield
`size = (1,2)`; the code instead binds the pair after `":"` to the source
offset and the pair after `"+"` to the size, yielding `size = (3,4)`. -/
theorem C1_counterexample :
    parse (chars "a:1,2+3,4>5,6") =
      .ok (['a'], { size := ⟨3, 4⟩, src := ⟨1, 2⟩, dst := ⟨5, 6⟩ }) ∧
    ({ size := ⟨3, 4⟩, src := ⟨1, 2⟩, dst := ⟨5, 6⟩ } : Replacer).size ≠
      (⟨1, 2⟩ : Vec2 Nat) := by
  decide

/-- Claim C1 (amended): in `"<key>:<a>,<b>+<c>,<d>><dx>,<dy>"` the pair
immediately after `":"` is the unsigned source offset and the pair after
`"+"` is the copy size; parsing `"tileA:256,256+0,0>128,64"` yields
`sourceOffset = (256,256)` and `copySize = (0,0)`. -/
theorem C1_theorem :
    parse (chars "tileA:256,256+0,0>128,64") =
      .ok (chars "tileA",
        { size := ⟨0, 0⟩, src := ⟨256, 256⟩, dst := ⟨128, 64⟩ }) := by
  decide

/-- Claim C2: on each malformed family named by the claim — missing fields,
trailing garbage, non-numeric component, empty key — `parse` reaches the
`panic!` arm (modelled by `Outcome.aborted`) instead of returning a
value-level `ParseError` to the caller. -/
theorem C2_theorem :
    parse (chars "a:1,1+0,0") = .aborted ∧
    parse (chars "a:1,1+0,0>0,0x") = .aborted ∧
    parse (chars "a:x,1+0,0>0,0") = .aborted ∧
    parse (chars ":1,1+0,0>0,0") = .aborted := by
  decide

/-- Claim C3 (counterexample): the claim's own example
`"tileA:256,256+0,0>128,-64"` does not parse at all — `digit1` admits no
`'-'` sign, so the whole instruction aborts instead of returning a
negative `destOffset` component. -/
theorem C3_counterexample :
    parse (chars "tileA:256,256+0,0>128,-64") = .aborted := by
  decide

/-- Claim C3 (amended): every successfully parsed instruction has
non-negative destination components; a leading `'-'` in `dx` or `dy` is a
parse failure, so the signedness of `dst : Vec2<i64>` never materializes. -/
theorem C3_theorem (s k : List Char) (rep : Replacer)
    (h : parse s = .ok (k, rep)) : 0 ≤ rep.dst.x ∧ 0 ≤ rep.dst.y := by
  unfold parse at h
  split at h
  · rename_i o key a b d heq
    simp only [Outcome.ok.injEq, Prod.mk.injEq] at h
    obtain ⟨-, hrep⟩ := h
    subst hrep
    unfold wholeInstr sepPair at heq
    split at heq
    · exact absurd heq (by simp)
    · split at heq
      · exact absurd heq (by simp)
      · split at heq
        · exact absurd heq (by simp)
        · rename_i o1 s1 a1 h1 o2 s2 u h2 o3 s3 b3 h3
          simp only [Option.some.injEq, Prod.mk.injEq] at heq
          obtain ⟨-, -, hbody⟩ := heq
          unfold bodyPart sepPair at h3
          split at h3
          · exact absurd h3 (by simp)
          · split at h3
            · exact absurd h3 (by simp)
            · split at h3
              · exact absurd h3 (by simp)
              · rename_i o4 s4 a4 h4 o5 s5 u5 h5 o6 s6 b6 h6
                simp only [Option.some.injEq, Prod.mk.injEq] at h3
                obtain ⟨-, hpair⟩ := h3
                rw [hbody] at hpair
                simp only [Prod.mk.injEq] at hpair
                obtain ⟨-, hd⟩ := hpair
                subst hd
                exact vecI64_nonneg h6
  · exact absurd h (by simp)

/-- Claim C3 (witness): `"a:1,1+0,0>2,3"` parses, and its destination
components are non-negative. -/
theorem C3_witness :
    0 ≤ ({ size := ⟨0, 0⟩, src := ⟨1, 1⟩, dst := ⟨2, 3⟩ } : Replacer).dst.x ∧
    0 ≤ ({ size := ⟨0, 0⟩, src := ⟨1, 1⟩, dst := ⟨2, 3⟩ } : Replacer).dst.y :=
  C3_theorem (chars "a:1,1+0,0>2,3") ['a'] _ (by decide)

/-! ### Facts about the compositor -/

/-- Pixels inside the jointly clipped write range of `replace` receive the
corresponding pixel of the top buffer. -/
theorem replace_pix_pos {α : Type} (bottom top : Img α) (x y : Int)
    (a b : Nat)
    (h : inRange x top.width bottom.width a ∧
         inRange y top.height bottom.height b) :
    (replace bottom top x y).pix a b =
      top.pix (topOrigin x bottom.width + (a - clipLo x bottom.width))
              (topOrigin y bottom.height + (b - clipLo y bottom.height)) := by
  simp only [replace]
  exact if_pos h

/-- Pixels outside the write range of `replace` are untouched. -/
theorem replace_pix_neg {α : Type} (bottom top : Img α) (x y : Int)
    (a b : Nat)
    (h : ¬ (inRange x top.width bottom.width a ∧
            inRange y top.height bottom.height b)) :
    (replace bottom top x y).pix a b = bottom.pix a b := by
  simp only [replace]
  exact if_neg h

/-- Whether `Replacer::apply` onto a `bw × bh` canvas writes destination
pixel `(a, b)`: the pixel lies in the jointly clipped range of the cropped
source placed at `rep.dst`. -/
abbrev covers (rep : Replacer) (srcI : Img Rgba) (bw bh a b : Nat) : Prop :=
  inRange rep.dst.x
    (crop_imm srcI rep.src.x rep.src.y rep.size.x rep.size.y).width bw a ∧
  inRange rep.dst.y
    (crop_imm srcI rep.src.x rep.src.y rep.size.x rep.size.y).height bh b

/-- The pixel value `Replacer::apply` writes at covered destination pixel
`(a, b)` of a `bw × bh` canvas: a pixel of the cropped source, independent
of the canvas's previous content. -/
def repValue (rep : Replacer) (srcI : Img Rgba) (bw bh a b : Nat) : Rgba :=
  (crop_imm srcI rep.src.x rep.src.y rep.size.x rep.size.y).pix
    (topOrigin rep.dst.x bw + (a - clipLo rep.dst.x bw))
    (topOrigin rep.dst.y bh + (b - clipLo rep.dst.y bh))

/-- `Replacer::apply` never changes the destination width. -/
theorem apply_width {α : Type} (rep : Replacer) (srcI dst : Img α) :
    (rep.apply srcI dst).width = dst.width := rfl

/-- `Replacer::apply` never changes the destination height. -/
theorem apply_height {α : Type} (rep : Replacer) (srcI dst : Img α) :
    (rep.apply srcI dst).height = dst.height := rfl

/-- A covered pixel is destructively overwritten — all four channels — with
a value that does not depend on the previous canvas content. -/
theorem apply_pix_covered (rep : Replacer) (srcI dst : Img Rgba) (a b : Nat)
    (h : covers rep srcI dst.width dst.height a b) :
    (rep.apply srcI dst).pix a b =
      repValue rep srcI dst.width dst.height a b :=
  replace_pix_pos dst _ rep.dst.x rep.dst.y a b h

/-- A pixel not covered by the instruction keeps its previous value. -/
theorem apply_pix_not (rep : Replacer) (srcI dst : Img Rgba) (a b : Nat)
    (h : ¬ covers rep srcI dst.width dst.height a b) :
    (rep.apply srcI dst).pix a b = dst.pix a b :=
  replace_pix_neg dst _ rep.dst.x rep.dst.y a b h

/-- Spec-side predicate (stated from the spec's words, to express claim
C4): the source rectangle `[sourceOffset, sourceOffset + copySize)` fits
within the actual bounds of the source buffer. -/
abbrev srcRectFits (rep : Replacer) (img : Img Rgba) : Prop :=
  rep.src.x + rep.size.x ≤ img.width ∧ rep.src.y + rep.size.y ≤ img.height

/-- A concrete 2×2 source buffer with distinguishable pixels. -/
def c4src : Img Rgba :=
  { width := 2, height := 2, pix := fun a b => (a + 1, b + 1, 7, 9) }

/-- A descriptor whose single instruction asks for a 3×3 rectangle at
source offset (1,1) of the 2×2 source — far out of bounds. -/
def c4ptimg : Ptimg :=
  { ptimg_version := 1
  , resources := []
  , views := [{ width := 3, height := 3, coords := [chars "b:1,1+3,3>0,0"] }] }

/-- The canvas the out-of-bounds descriptor reconstructs to. -/
def c4out : Img Rgba :=
  match c4ptimg.restore (fun _ => c4src) with
  | .ok (c :: _) => c
  | _ => Img.blank 0 0

/-- Claim C4 (counterexample): the instruction's 3×3 source rectangle at
offset (1,1) does not fit in the 2×2 source buffer, yet `restore`
succeeds — no error of any kind is reported; the crop is silently clamped
to the single in-bounds source pixel, which lands at canvas (0,0), and the
rest of the canvas stays zero. -/
theorem C4_counterexample :
    parse (chars "b:1,1+3,3>0,0") =
      .ok (['b'], { size := ⟨3, 3⟩, src := ⟨1, 1⟩, dst := ⟨0, 0⟩ }) ∧
    ¬ srcRectFits { size := ⟨3, 3⟩, src := ⟨1, 1⟩, dst := ⟨0, 0⟩ } c4src ∧
    (c4ptimg.restore (fun _ => c4src)).isOk = true ∧
    c4out.pix 0 0 = (2, 2, 7, 9) ∧
    c4out.pix 1 1 = rgbaZero := by
  decide

/-- Claim C4 (amended): a source rectangle that exceeds the source buffer
is silently clamped by `crop_imm`, never reported: the crop extent shrinks
to fit and every pixel the crop exposes is read in bounds from the source
buffer. -/
theorem C4_theorem (img : Img Rgba) (x y w h a b : Nat)
    (ha : a < (crop_imm img x y w h).width)
    (hb : b < (crop_imm img x y w h).height) :
    (crop_imm img x y w h).width ≤ w ∧
    (crop_imm img x y w h).height ≤ h ∧
    min x img.width + a < img.width ∧
    min y img.height + b < img.height ∧
    (crop_imm img x y w h).pix a b =
      img.pix (min x img.width + a) (min y img.height + b) := by
  have hxw : min x img.width ≤ img.width := Nat.min_le_right _ _
  have hyh : min y img.height ≤ img.height := Nat.min_le_right _ _
  have ha' : a < min w (img.width - min x img.width) := ha
  have hb' : b < min h (img.height - min y img.height) := hb
  refine ⟨Nat.min_le_left _ _, Nat.min_le_left _ _, ?_, ?_, rfl⟩
  · have := Nat.lt_min.mp ha'
    omega
  · have := Nat.lt_min.mp hb'
    omega

/-- Claim C4 (witness): the clamped 3×3-at-(1,1) crop of the 2×2 source is
1×1 and reads source pixel (1,1) in bounds. -/
theorem C4_witness :
    (crop_imm c4src 1 1 3 3).width ≤ 3 ∧
    (crop_imm c4src 1 1 3 3).height ≤ 3 ∧
    min 1 c4src.width + 0 < c4src.width ∧
    min 1 c4src.height + 0 < c4src.height ∧
    (crop_imm c4src 1 1 3 3).pix 0 0 =
      c4src.pix (min 1 c4src.width + 0) (min 1 c4src.height + 0) :=
  C4_theorem c4src 1 1 3 3 0 0 (by decide) (by decide)

/-- A 10×10 source buffer with arbitrary pixel content `f`. -/
def clipSrc (f : Nat → Nat → Rgba) : Img Rgba :=
  { width := 10, height := 10, pix := f }

/-- The spec's clipping scenario: a 10×10 source rectangle composited at
destination offset (-5,-5) onto a fresh 10×10 canvas. -/
def clipOut (f : Nat → Nat → Rgba) : Img Rgba :=
  Replacer.apply { size := ⟨10, 10⟩, src := ⟨0, 0⟩, dst := ⟨-5, -5⟩ }
    (clipSrc f) (Img.blank 10 10)

/-- Claim C6: compositing a 10×10 source rectangle at destination offset
(-5,-5) onto a 10×10 canvas writes exactly the bottom-right 5×5 sub-region
of the rectangle into the top-left 5×5 of the canvas — destination pixel
`(a, b)` with `a, b < 5` receives source pixel `(5+a, 5+b)` — and every
other canvas pixel keeps its initial zero value; no error is possible. -/
theorem C6_theorem (f : Nat → Nat → Rgba) (a b : Nat) :
    (clipOut f).width = 10 ∧ (clipOut f).height = 10 ∧
    (a < 5 → b < 5 → (clipOut f).pix a b = f (5 + a) (5 + b)) ∧
    (¬ (a < 5 ∧ b < 5) → (clipOut f).pix a b = rgbaZero) := by
  have hw : (crop_imm (clipSrc f) 0 0 10 10).width = 10 := rfl
  have hh : (crop_imm (clipSrc f) 0 0 10 10).height = 10 := rfl
  have h1 : clipLo (-5 : Int) 10 = 0 := by decide
  have h2 : rangeLen (-5 : Int) 10 10 = 5 := by decide
  have h3 : topOrigin (-5 : Int) 10 = 5 := by decide
  refine ⟨rfl, rfl, ?_, ?_⟩
  · intro ha hb
    have hc : inRange (-5 : Int) (crop_imm (clipSrc f) 0 0 10 10).width 10 a ∧
        inRange (-5 : Int) (crop_imm (clipSrc f) 0 0 10 10).height 10 b := by
      simp only [inRange, hw, hh, h1, h2]
      omega
    have := replace_pix_pos (Img.blank 10 10)
      (crop_imm (clipSrc f) 0 0 10 10) (-5) (-5) a b hc
    rw [show (clipOut f).pix a b =
        (replace (Img.blank 10 10) (crop_imm (clipSrc f) 0 0 10 10)
          (-5) (-5)).pix a b from rfl, this]
    simp only [crop_imm, clipSrc, show (Img.blank 10 10).width = 10 from rfl,
      show (Img.blank 10 10).height = 10 from rfl, h1, h3]
    have e1 : min 0 10 + (5 + (a - 0)) = 5 + a := by omega
    have e2 : min 0 10 + (5 + (b - 0)) = 5 + b := by omega
    rw [e1, e2]
  · intro hab
    have hc : ¬ (inRange (-5 : Int) (crop_imm (clipSrc f) 0 0 10 10).width 10 a ∧
        inRange (-5 : Int) (crop_imm (clipSrc f) 0 0 10 10).height 10 b) := by
      simp only [inRange, hw, hh, h1, h2]
      omega
    have := replace_pix_neg (Img.blank 10 10)
      (crop_imm (clipSrc f) 0 0 10 10) (-5) (-5) a b hc
    rw [show (clipOut f).pix a b =
        (replace (Img.blank 10 10) (crop_imm (clipSrc f) 0 0 10 10)
          (-5) (-5)).pix a b from rfl, this]
    rfl

/-- A concrete pixel function for the clipping witness. -/
def c6f : Nat → Nat → Rgba := fun a b => (a, b, 3, 4)

/-- Claim C6 (witness): with source pixel `(a, b) ↦ (a, b, 3, 4)`, canvas
pixel (1,2) receives source pixel (6,7) and canvas pixel (7,3) stays
zero. -/
theorem C6_witness :
    (clipOut c6f).pix 1 2 = c6f 6 7 ∧ (clipOut c6f).pix 7 3 = rgbaZero :=
  ⟨(C6_theorem c6f 1 2).2.2.1 (by decide) (by decide),
   (C6_theorem c6f 7 3).2.2.2 (by decide)⟩

/-! ### The instruction loop of `Ptimg::restore` -/

/-- Once an instruction has panicked, the rest of the loop never runs. -/
theorem foldl_restoreStep_aborted (map : List Char → Img Rgba)
    (l : List (List Char)) :
    l.foldl (restoreStep map) .aborted = .aborted := by
  induction l with
  | nil => rfl
  | cons s l ih => exact ih

/-- The instruction loop never changes the canvas dimensions. -/
theorem restore_fold_dims (map : List Char → Img Rgba)
    (l : List (List Char)) (d d' : Img Rgba)
    (h : l.foldl (restoreStep map) (.ok d) = .ok d') :
    d'.width = d.width ∧ d'.height = d.height := by
  induction l generalizing d with
  | nil =>
    rw [List.foldl_nil] at h
    injection h with h'
    subst h'
    exact ⟨rfl, rfl⟩
  | cons s l ih =>
    rw [List.foldl_cons] at h
    cases hp : parse s with
    | ok kr =>
      obtain ⟨key, rep⟩ := kr
      rw [show restoreStep map (.ok d) s = .ok (rep.apply (map key) d) from
        by simp [restoreStep, hp]] at h
      obtain ⟨h1, h2⟩ := ih _ h
      exact ⟨h1.trans (apply_width ..), h2.trans (apply_height ..)⟩
    | aborted =>
      rw [show restoreStep map (.ok d) s = .aborted from
        by simp [restoreStep, hp], foldl_restoreStep_aborted] at h
      exact absurd h (by simp)

/-- A destination pixel covered by no instruction of the remaining list
keeps its value through the rest of the loop. -/
theorem restore_fold_untouched (map : List Char → Img Rgba)
    (l : List (List Char)) (w h a b : Nat) (d d' : Img Rgba)
    (hnc : ∀ s ∈ l, ∀ k r, parse s = .ok (k, r) →
      ¬ covers r (map k) w h a b)
    (hw : d.width = w) (hh : d.height = h)
    (hf : l.foldl (restoreStep map) (.ok d) = .ok d') :
    d'.pix a b = d.pix a b := by
  induction l generalizing d with
  | nil =>
    rw [List.foldl_nil] at hf
    injection hf with h'
    subst h'
    rfl
  | cons s l ih =>
    rw [List.foldl_cons] at hf
    cases hp : parse s with
    | ok kr =>
      obtain ⟨k, r⟩ := kr
      rw [show restoreStep map (.ok d) s = .ok (r.apply (map k) d) from
        by simp [restoreStep, hp]] at hf
      have hap : (r.apply (map k) d).pix a b = d.pix a b := by
        apply apply_pix_not
        rw [hw, hh]
        exact hnc s (List.mem_cons_self ..) k r hp
      have htl := ih _ (fun s' hs' => hnc s' (List.mem_cons_of_mem _ hs'))
        ((apply_width ..).trans hw) ((apply_height ..).trans hh) hf
      exact htl.trans hap
    | aborted =>
      rw [show restoreStep map (.ok d) s = .aborted from
        by simp [restoreStep, hp], foldl_restoreStep_aborted] at hf
      exact absurd hf (by simp)

/-- Claim C5: instructions of a view are applied strictly in list order and
each applied rectangle destructively overwrites every covered destination
pixel (all four channels, alpha included).  If instruction `s` covers
destination pixel `(a, b)` and no later instruction covers it, the final
canvas holds exactly the value `s` writes — a pixel of `s`'s own source,
independent of everything painted before. -/
theorem C5_theorem (v : View) (map : List Char → Img Rgba)
    (pre post : List (List Char)) (s k : List Char) (rep : Replacer)
    (a b : Nat) (d : Img Rgba)
    (hc : v.coords = pre ++ s :: post)
    (hp : parse s = .ok (k, rep))
    (hcov : covers rep (map k) v.width v.height a b)
    (hpost : ∀ s' ∈ post, ∀ k' r', parse s' = .ok (k', r') →
      ¬ covers r' (map k') v.width v.height a b)
    (hr : v.restoreOne map = .ok d) :
    d.pix a b = repValue rep (map k) v.width v.height a b := by
  unfold View.restoreOne at hr
  rw [hc, List.foldl_append, List.foldl_cons] at hr
  cases hacc : pre.foldl (restoreStep map) (.ok (Img.blank v.width v.height)) with
  | aborted =>
    rw [hacc, show restoreStep map .aborted s = .aborted from rfl,
      foldl_restoreStep_aborted] at hr
    exact absurd hr (by simp)
  | ok d1 =>
    rw [hacc] at hr
    have hdims := restore_fold_dims map pre _ d1 hacc
    have hw1 : d1.width = v.width := hdims.1
    have hh1 : d1.height = v.height := hdims.2
    rw [show restoreStep map (.ok d1) s = .ok (rep.apply (map k) d1) from
      by simp [restoreStep, hp]] at hr
    have hval : (rep.apply (map k) d1).pix a b =
        repValue rep (map k) v.width v.height a b := by
      have hcv : covers rep (map k) d1.width d1.height a b := by
        rw [hw1, hh1]
        exact hcov
      rw [apply_pix_covered rep (map k) d1 a b hcv, hw1, hh1]
    have hfinal := restore_fold_untouched map post v.width v.height a b _ d
      hpost ((apply_width ..).trans hw1) ((apply_height ..).trans hh1) hr
    exact hfinal.trans hval

/-- Resolver for the overwrite witness: key `"a"` maps to an all-ones
source, every other key to an all-twos source. -/
def c5map : List Char → Img Rgba := fun k =>
  if k = ['a'] then { width := 2, height := 2, pix := fun _ _ => (1, 1, 1, 1) }
  else { width := 2, height := 2, pix := fun _ _ => (2, 2, 2, 2) }

/-- A view whose two instructions both cover canvas pixel (0,0). -/
def c5view : View :=
  { width := 2, height := 2
  , coords := [chars "a:0,0+2,2>0,0", chars "b:0,0+1,1>0,0"] }

/-- What the second instruction of `c5view` parses to. -/
def c5rep : Replacer := { size := ⟨1, 1⟩, src := ⟨0, 0⟩, dst := ⟨0, 0⟩ }

/-- The canvas `c5view` reconstructs to. -/
def c5out : Img Rgba :=
  match c5view.restoreOne c5map with
  | .ok d => d
  | .aborted => Img.blank 0 0

/-- Claim C5 (witness): both instructions of `c5view` write pixel (0,0);
the final canvas holds the value of the later one (drawn from source
`"b"`). -/
theorem C5_witness :
    c5out.pix 0 0 = repValue c5rep (c5map (chars "b")) 2 2 0 0 :=
  C5_theorem c5view c5map [chars "a:0,0+2,2>0,0"] [] (chars "b:0,0+1,1>0,0")
    ['b'] c5rep 0 0 c5out rfl (by decide) (by decide) (by simp) rfl

/-! ### Per-view shape of `Ptimg::restore` -/

/-- Default view for positional indexing. -/
def dView : View := { width := 0, height := 0, coords := [] }

/-- Default canvas for positional indexing. -/
def dImg : Img Rgba := Img.blank 0 0

/-- A successful `restoreOne` yields a canvas of the view's declared
dimensions (those of the freshly allocated zero canvas it starts from). -/
theorem restoreOne_dims (v : View) (map : List Char → Img Rgba)
    (d : Img Rgba) (h : v.restoreOne map = .ok d) :
    d.width = v.width ∧ d.height = v.height :=
  restore_fold_dims map v.coords _ d h

/-- A successful `restore` returns exactly one canvas per view, and the
canvas at position `i` is the one reconstructed from the view at position
`i`. -/
theorem restore_list_spec (map : List Char → Img Rgba) (vs : List View)
    (l : List (Img Rgba))
    (h : vs.foldr (collectStep map) (.ok []) = .ok l) :
    l.length = vs.length ∧ ∀ i, i < vs.length →
      Outcome.ok (l.getD i dImg) = (vs.getD i dView).restoreOne map := by
  induction vs generalizing l with
  | nil =>
    rw [List.foldr_nil] at h
    injection h with h'
    subst h'
    exact ⟨rfl, fun i hi => absurd hi (Nat.not_lt_zero i)⟩
  | cons v vs ih =>
    rw [List.foldr_cons] at h
    cases hv : v.restoreOne map with
    | aborted =>
      rw [show collectStep map v (vs.foldr (collectStep map) (.ok [])) =
        .aborted from by simp [collectStep, hv]] at h
      exact absurd h (by simp)
    | ok d =>
      cases ht : vs.foldr (collectStep map) (.ok []) with
      | aborted =>
        rw [show collectStep map v (vs.foldr (collectStep map) (.ok [])) =
          .aborted from by simp [collectStep, hv, ht]] at h
        exact absurd h (by simp)
      | ok l' =>
        rw [show collectStep map v (vs.foldr (collectStep map) (.ok [])) =
          .ok (d :: l') from by simp [collectStep, hv, ht]] at h
        injection h with h'
        subst h'
        obtain ⟨hlen, hidx⟩ := ih l' ht
        refine ⟨by simp [hlen], fun i hi => ?_⟩
        cases i with
        | zero => simpa using hv.symm
        | succ j =>
          simp only [List.getD_cons_succ]
          exact hidx j (by simpa using hi)

/-- Claim C8: a successful reconstruction yields exactly one canvas per
view, in view-list order; the canvas at position `i` comes from the view
at position `i`, carries that view's declared width and height, and the
canvas every view starts from — before any instruction is applied — has
every pixel equal to the fully transparent zero value. -/
theorem C8_theorem (p : Ptimg) (map : List Char → Img Rgba)
    (l : List (Img Rgba)) (i a b : Nat)
    (hr : p.restore map = .ok l) (hi : i < p.views.length) :
    l.length = p.views.length ∧
    Outcome.ok (l.getD i dImg) = (p.views.getD i dView).restoreOne map ∧
    (l.getD i dImg).width = (p.views.getD i dView).width ∧
    (l.getD i dImg).height = (p.views.getD i dView).height ∧
    (Img.blank (p.views.getD i dView).width
      (p.views.getD i dView).height).pix a b = rgbaZero := by
  obtain ⟨hlen, hidx⟩ := restore_list_spec map p.views l hr
  have hprov := hidx i hi
  have hdims := restoreOne_dims _ map _ hprov.symm
  exact ⟨hlen, hprov, hdims.1, hdims.2, rfl⟩

/-- A two-view descriptor: an instruction-free 2×3 view and a 1×1 view
with one instruction. -/
def c8ptimg : Ptimg :=
  { ptimg_version := 1
  , resources := [(['t'], { src := ['u'], width := 9, height := 9 })]
  , views :=
      [ { width := 2, height := 3, coords := [] }
      , { width := 1, height := 1, coords := [chars "a:0,0+1,1>0,0"] } ] }

/-- Resolver for the C8 witness. -/
def c8map : List Char → Img Rgba :=
  fun _ => { width := 1, height := 1, pix := fun _ _ => (5, 6, 7, 8) }

/-- The canvases `c8ptimg` reconstructs to. -/
def c8out : List (Img Rgba) :=
  match c8ptimg.restore c8map with
  | .ok l => l
  | .aborted => []

/-- Claim C8 (witness): `c8ptimg` reconstructs to one canvas per view; the
first canvas is the instruction-free view's, has its declared 2×3 size,
and starts from an all-zero canvas. -/
theorem C8_witness :
    c8out.length = c8ptimg.views.length ∧
    Outcome.ok (c8out.getD 0 dImg) =
      (c8ptimg.views.getD 0 dView).restoreOne c8map ∧
    (c8out.getD 0 dImg).width = (c8ptimg.views.getD 0 dView).width ∧
    (c8out.getD 0 dImg).height = (c8ptimg.views.getD 0 dView).height ∧
    (Img.blank (c8ptimg.views.getD 0 dView).width
      (c8ptimg.views.getD 0 dView).height).pix 0 0 = rgbaZero :=
  C8_theorem c8ptimg c8map c8out 0 0 0 rfl (by decide)

/-- Claim C9: parsing and reconstruction are referentially transparent —
the embedding of `parse` and `Ptimg::restore` is purely functional, so two
runs on equal instruction strings, equal descriptors, and equal resolvers
produce equal structured instructions and byte-identical canvases. -/
theorem C9_theorem (p q : Ptimg) (m n : List Char → Img Rgba)
    (s t : List Char) (hpq : p = q) (hmn : m = n) (hst : s = t) :
    parse s = parse t ∧ p.restore m = q.restore n := by
  subst hpq
  subst hmn
  subst hst
  exact ⟨rfl, rfl⟩

/-- A one-view descriptor for the determinism witness. -/
def c9ptimg : Ptimg :=
  { ptimg_version := 0
  , resources := []
  , views := [{ width := 1, height := 1, coords := [chars "k:0,0+1,1>0,0"] }] }

/-- Resolver for the C9 witness. -/
def c9map : List Char → Img Rgba :=
  fun _ => { width := 1, height := 1, pix := fun _ _ => (1, 2, 3, 4) }

/-- Claim C9 (witness): two runs on the same concrete descriptor, resolver
and instruction string agree. -/
theorem C9_witness :
    parse (chars "k:0,0+1,1>0,0") = parse (chars "k:0,0+1,1>0,0") ∧
    c9ptimg.restore c9map = c9ptimg.restore c9map :=
  C9_theorem c9ptimg c9ptimg c9map c9map
    (chars "k:0,0+1,1>0,0") (chars "k:0,0+1,1>0,0") rfl rfl rfl

/-- Claim C10: `restore` reads nothing of the descriptor but its `views`
list — two descriptors with the same views but arbitrarily different
`ptimg_version` tags and `resources` maps (declared resource dimensions
included) reconstruct to identical canvases under the same resolver; in
particular declared resource dimensions never validate a source
rectangle. -/
theorem C10_theorem (p q : Ptimg) (map : List Char → Img Rgba)
    (h : p.views = q.views) : p.restore map = q.restore map := by
  unfold Ptimg.restore
  rw [h]

/-- Descriptor with version 1 and no resources. -/
def c10a : Ptimg :=
  { ptimg_version := 1
  , resources := []
  , views := [{ width := 2, height := 2, coords := [chars "r:0,0+2,2>1,1"] }] }

/-- Same views as `c10a`, but version 99 and a resource declared 1×1 —
too small for the view's 2×2 instruction, which `restore` never checks. -/
def c10b : Ptimg :=
  { ptimg_version := 99
  , resources := [(chars "r", { src := chars "zzz", width := 1, height := 1 })]
  , views := c10a.views }

/-- Resolver for the C10 witness. -/
def c10map : List Char → Img Rgba :=
  fun _ => { width := 4, height := 4, pix := fun a b => (a, b, 0, 1) }

/-- Claim C10 (witness): `c10a` and `c10b` differ in version tag and
resource map (including declared dimensions) but reconstruct
identically. -/
theorem C10_witness : c10a.restore c10map = c10b.restore c10map :=
  C10_theorem c10a c10b c10map rfl

/-! ### Decimal formatting and the grammar round trip

The spec side of claim C7: a formatter that renders a
`(key, w, h, sx, sy, dx, dy)` tuple in the spec's instruction encoding
`"<key>:<w>,<h>+<sx>,<sy>><dx>,<dy>"`. -/

/-- The ASCII character of a decimal digit. -/
def digitChar (d : Nat) : Char :=
  if d = 0 then '0' else if d = 1 then '1' else if d = 2 then '2'
  else if d = 3 then '3' else if d = 4 then '4' else if d = 5 then '5'
  else if d = 6 then '6' else if d = 7 then '7' else if d = 8 then '8'
  else '9'

/-- Fuel-driven decimal rendering (most significant digit first). -/
def natDigitsAux : Nat → Nat → List Char
  | 0, _ => []
  | fuel + 1, n =>
    if n < 10 then [digitChar n]
    else natDigitsAux fuel (n / 10) ++ [digitChar (n % 10)]

/-- Decimal digits of `n`. -/
def natDigits (n : Nat) : List Char := natDigitsAux (n + 1) n

/-- Decimal rendering of an integer, with a leading `'-'` when negative. -/
def intRepr (i : Int) : List Char :=
  if i < 0 then '-' :: natDigits i.natAbs else natDigits i.natAbs

/-- Modelled from the spec: the instruction-string encoding
`"<key>:<w>,<h>+<sx>,<sy>><dx>,<dy>"` of a tuple, for the round-trip
claim. -/
def fmtInstr (key : List Char) (w h sx sy : Nat) (dx dy : Int) : List Char :=
  key ++ ':' :: (natDigits w ++ ',' :: (natDigits h ++ '+' ::
    (natDigits sx ++ ',' :: (natDigits sy ++ '>' ::
      (intRepr dx ++ ',' :: intRepr dy)))))

/-- `digitChar` of a digit value is an ASCII digit. -/
theorem digitChar_isDigit (d : Nat) (h : d < 10) :
    (digitChar d).isDigit = true := by
  interval_cases d <;> decide

/-- `digitChar` inverts to its digit value. -/
theorem digitChar_toNat (d : Nat) (h : d < 10) :
    (digitChar d).toNat = 48 + d := by
  interval_cases d <;> decide

/-- Appending one digit multiplies the accumulated value by ten. -/
theorem digitsToNat_append (l : List Char) (c : Char) :
    digitsToNat (l ++ [c]) = digitsToNat l * 10 + (c.toNat - 48) := by
  unfold digitsToNat
  rw [List.foldl_append]
  rfl

/-- With enough fuel, `natDigitsAux` emits only digits, is non-empty, and
`digitsToNat` inverts it. -/
theorem natDigitsAux_spec (fuel : Nat) : ∀ n, n < fuel →
    (∀ c ∈ natDigitsAux fuel n, c.isDigit = true) ∧
    natDigitsAux fuel n ≠ [] ∧
    digitsToNat (natDigitsAux fuel n) = n := by
  induction fuel with
  | zero => exact fun n hn => absurd hn (Nat.not_lt_zero n)
  | succ fuel ih =>
    intro n hn
    by_cases h10 : n < 10
    · rw [show natDigitsAux (fuel + 1) n = [digitChar n] from
        by simp [natDigitsAux, h10]]
      refine ⟨?_, by simp, ?_⟩
      · intro c hc
        rw [List.mem_singleton.mp hc]
        exact digitChar_isDigit n h10
      · show digitsToNat ([] ++ [digitChar n]) = n
        rw [digitsToNat_append, digitChar_toNat n h10]
        simp [digitsToNat]
    · obtain ⟨hd, hne, hv⟩ := ih (n / 10) (by omega)
      rw [show natDigitsAux (fuel + 1) n =
        natDigitsAux fuel (n / 10) ++ [digitChar (n % 10)] from
        by simp [natDigitsAux, h10]]
      refine ⟨?_, by simp, ?_⟩
      · intro c hc
        rcases List.mem_append.mp hc with h | h
        · exact hd c h
        · rw [List.mem_singleton.mp h]
          exact digitChar_isDigit (n % 10) (by omega)
      · rw [digitsToNat_append, hv, digitChar_toNat (n % 10) (by omega)]
        omega

/-- `natDigits` emits only ASCII digits. -/
theorem natDigits_digits (n : Nat) : ∀ c ∈ natDigits n, c.isDigit = true :=
  (natDigitsAux_spec (n + 1) n (Nat.lt_succ_self n)).1

/-- `natDigits` is never empty. -/
theorem natDigits_ne_nil (n : Nat) : natDigits n ≠ [] :=
  (natDigitsAux_spec (n + 1) n (Nat.lt_succ_self n)).2.1

/-- `digitsToNat` inverts `natDigits`. -/
theorem digitsToNat_natDigits (n : Nat) : digitsToNat (natDigits n) = n :=
  (natDigitsAux_spec (n + 1) n (Nat.lt_succ_self n)).2.2

/-- `takeWhile`/`dropWhile` split `l ++ r` exactly at the boundary when
all of `l` satisfies the predicate and the head of `r` does not. -/
theorem takeWhile_append_all {p : Char → Bool} (l r : List Char)
    (hl : ∀ c ∈ l, p c = true)
    (hr : ∀ c, r.head? = some c → p c = false) :
    (l ++ r).takeWhile p = l ∧ (l ++ r).dropWhile p = r := by
  induction l with
  | nil =>
    simp only [List.nil_append]
    cases r with
    | nil => exact ⟨rfl, rfl⟩
    | cons c r' =>
      have hc := hr c rfl
      constructor
      · simp [List.takeWhile_cons, hc]
      · simp [List.dropWhile_cons, hc]
  | cons a l ih =>
    have ha := hl a (List.mem_cons_self ..)
    obtain ⟨h1, h2⟩ := ih (fun c hc => hl c (List.mem_cons_of_mem _ hc))
    constructor
    · simp [List.takeWhile_cons, ha, h1]
    · simp [List.dropWhile_cons, ha, h2]

/-- The head of `r`, if any, is not a digit. -/
abbrev headNotDigit (r : List Char) : Prop :=
  ∀ c, r.head? = some c → c.isDigit = false

/-- The head of `r`, if any, is not alphabetic. -/
abbrev headNotAlpha (r : List Char) : Prop :=
  ∀ c, r.head? = some c → c.isAlpha = false

/-- A list headed by a non-digit character satisfies `headNotDigit`. -/
theorem headNotDigit_cons (c : Char) (h : c.isDigit = false)
    (r : List Char) : headNotDigit (c :: r) := by
  intro c' hc'
  simp only [List.head?_cons, Option.some.injEq] at hc'
  exact hc' ▸ h

/-- `digit1` consumes exactly a leading all-digit block. -/
theorem digit1_exact (ds r : List Char) (h1 : ∀ c ∈ ds, c.isDigit = true)
    (h2 : ds ≠ []) (h3 : headNotDigit r) :
    digit1 (ds ++ r) = some (r, ds) := by
  obtain ⟨ht, hd⟩ := takeWhile_append_all ds r h1 h3
  unfold digit1
  rw [ht, hd, if_neg h2]

/-- `alpha1` consumes exactly a leading all-alphabetic block. -/
theorem alpha1_exact (ks r : List Char) (h1 : ∀ c ∈ ks, c.isAlpha = true)
    (h2 : ks ≠ []) (h3 : headNotAlpha r) :
    alpha1 (ks ++ r) = some (r, ks) := by
  obtain ⟨ht, hd⟩ := takeWhile_append_all ks r h1 h3
  unfold alpha1
  rw [ht, hd, if_neg h2]

/-- `num::<u32>` reads back a formatted in-range number. -/
theorem numU32_exact (n : Nat) (hn : n < 2 ^ 32) (r : List Char)
    (h3 : headNotDigit r) : numU32 (natDigits n ++ r) = some (r, n) := by
  unfold numU32
  rw [digit1_exact _ _ (natDigits_digits n) (natDigits_ne_nil n) h3]
  simp only [digitsToNat_natDigits]
  rw [if_pos hn]

/-- `num::<i64>` reads back a formatted in-range non-negative number. -/
theorem numI64_exact (n : Nat) (hn : n < 2 ^ 63) (r : List Char)
    (h3 : headNotDigit r) :
    numI64 (natDigits n ++ r) = some (r, (n : Int)) := by
  unfold numI64
  rw [digit1_exact _ _ (natDigits_digits n) (natDigits_ne_nil n) h3]
  simp only [digitsToNat_natDigits]
  rw [if_pos hn]

/-- `vec::<u32>` reads back a formatted pair. -/
theorem vecU32_exact (a b : Nat) (ha : a < 2 ^ 32) (hb : b < 2 ^ 32)
    (r : List Char) (h3 : headNotDigit r) :
    vecU32 (natDigits a ++ ',' :: (natDigits b ++ r)) = some (r, ⟨a, b⟩) := by
  have e1 := numU32_exact a ha (',' :: (natDigits b ++ r))
    (headNotDigit_cons ',' (by decide) _)
  have e2 : tagCh ',' (',' :: (natDigits b ++ r)) =
      some (natDigits b ++ r, ()) := by simp [tagCh]
  have e3 := numU32_exact b hb r h3
  simp only [vecU32, sepPair, e1, e2, e3]

/-- `vec::<i64>` reads back a formatted non-negative pair. -/
theorem vecI64_exact (a b : Nat) (ha : a < 2 ^ 63) (hb : b < 2 ^ 63)
    (r : List Char) (h3 : headNotDigit r) :
    vecI64 (natDigits a ++ ',' :: (natDigits b ++ r)) =
      some (r, ⟨(a : Int), (b : Int)⟩) := by
  have e1 := numI64_exact a ha (',' :: (natDigits b ++ r))
    (headNotDigit_cons ',' (by decide) _)
  have e2 : tagCh ',' (',' :: (natDigits b ++ r)) =
      some (natDigits b ++ r, ()) := by simp [tagCh]
  have e3 := numI64_exact b hb r h3
  simp only [vecI64, sepPair, e1, e2, e3]

/-- `vec::<i64>` at the very end of the input. -/
theorem vecI64_exact_nil (a b : Nat) (ha : a < 2 ^ 63) (hb : b < 2 ^ 63) :
    vecI64 (natDigits a ++ ',' :: natDigits b) =
      some ([], ⟨(a : Int), (b : Int)⟩) := by
  have := vecI64_exact a b ha hb [] (fun c hc => by simp at hc)
  rwa [List.append_nil] at this

/-- The `src` sub-parser reads back two formatted pairs around `"+"`. -/
theorem srcPart_exact (w h sx sy : Nat) (hw : w < 2 ^ 32) (hh : h < 2 ^ 32)
    (hsx : sx < 2 ^ 32) (hsy : sy < 2 ^ 32) (r : List Char)
    (h3 : headNotDigit r) :
    srcPart (natDigits w ++ ',' :: (natDigits h ++ '+' ::
        (natDigits sx ++ ',' :: (natDigits sy ++ r)))) =
      some (r, (⟨w, h⟩, ⟨sx, sy⟩)) := by
  have e1 := vecU32_exact w h hw hh
    ('+' :: (natDigits sx ++ ',' :: (natDigits sy ++ r)))
    (headNotDigit_cons '+' (by decide) _)
  have e2 : tagCh '+' ('+' :: (natDigits sx ++ ',' :: (natDigits sy ++ r))) =
      some (natDigits sx ++ ',' :: (natDigits sy ++ r), ()) := by
    simp [tagCh]
  have e3 := vecU32_exact sx sy hsx hsy r h3
  simp only [srcPart, sepPair, e1, e2, e3]

/-- The `bdy` sub-parser reads back the full numeric body. -/
theorem bodyPart_exact (w h sx sy dx dy : Nat)
    (hw : w < 2 ^ 32) (hh : h < 2 ^ 32) (hsx : sx < 2 ^ 32)
    (hsy : sy < 2 ^ 32) (hdx : dx < 2 ^ 63) (hdy : dy < 2 ^ 63) :
    bodyPart (natDigits w ++ ',' :: (natDigits h ++ '+' ::
        (natDigits sx ++ ',' :: (natDigits sy ++ '>' ::
          (natDigits dx ++ ',' :: natDigits dy))))) =
      some ([], ((⟨w, h⟩, ⟨sx, sy⟩), ⟨(dx : Int), (dy : Int)⟩)) := by
  have e1 := srcPart_exact w h sx sy hw hh hsx hsy
    ('>' :: (natDigits dx ++ ',' :: natDigits dy))
    (headNotDigit_cons '>' (by decide) _)
  have e2 : tagCh '>' ('>' :: (natDigits dx ++ ',' :: natDigits dy)) =
      some (natDigits dx ++ ',' :: natDigits dy, ()) := by simp [tagCh]
  have e3 := vecI64_exact_nil dx dy hdx hdy
  simp only [bodyPart, sepPair, e1, e2, e3]

/-- The whole-instruction parser reads back a formatted tuple. -/
theorem wholeInstr_exact (key : List Char) (w h sx sy dx dy : Nat)
    (hk : key ≠ []) (hka : ∀ c ∈ key, c.isAlpha = true)
    (hw : w < 2 ^ 32) (hh : h < 2 ^ 32) (hsx : sx < 2 ^ 32)
    (hsy : sy < 2 ^ 32) (hdx : dx < 2 ^ 63) (hdy : dy < 2 ^ 63) :
    wholeInstr (key ++ ':' :: (natDigits w ++ ',' :: (natDigits h ++ '+' ::
        (natDigits sx ++ ',' :: (natDigits sy ++ '>' ::
          (natDigits dx ++ ',' :: natDigits dy)))))) =
      some ([], (key, ((⟨w, h⟩, ⟨sx, sy⟩), ⟨(dx : Int), (dy : Int)⟩))) := by
  have e1 := alpha1_exact key
    (':' :: (natDigits w ++ ',' :: (natDigits h ++ '+' ::
      (natDigits sx ++ ',' :: (natDigits sy ++ '>' ::
        (natDigits dx ++ ',' :: natDigits dy))))))
    hka hk (fun c hc => by
      simp only [List.head?_cons, Option.some.injEq] at hc
      exact hc ▸ (by decide))
  have e2 : tagCh ':' (':' :: (natDigits w ++ ',' :: (natDigits h ++ '+' ::
      (natDigits sx ++ ',' :: (natDigits sy ++ '>' ::
        (natDigits dx ++ ',' :: natDigits dy)))))) =
      some (natDigits w ++ ',' :: (natDigits h ++ '+' ::
        (natDigits sx ++ ',' :: (natDigits sy ++ '>' ::
          (natDigits dx ++ ',' :: natDigits dy)))), ()) := by simp [tagCh]
  have e3 := bodyPart_exact w h sx sy dx dy hw hh hsx hsy hdx hdy
  simp only [wholeInstr, sepPair, e1, e2, e3]

/-- A non-negative integer formats without a sign. -/
theorem intRepr_natCast (n : Nat) : intRepr (n : Int) = natDigits n := by
  unfold intRepr
  rw [if_neg (not_lt.mpr (Int.natCast_nonneg n)), Int.natAbs_ofNat]

/-- Claim C7 (amended): formatting then parsing round-trips exactly for
tuples whose `dx, dy` are non-negative and whose numeric fields are within
the parser's machine ranges (`w, h, sx, sy < 2³²`; `dx, dy < 2⁶³`): all
seven components come back, with the first formatted pair stored in the
`Replacer`'s source-offset field and the second in its size field.  Tuples
with negative `dx` or `dy` fail to parse (see the counterexample). -/
theorem C7_theorem (key : List Char) (w h sx sy dx dy : Nat)
    (hk : key ≠ []) (hka : ∀ c ∈ key, c.isAlpha = true)
    (hw : w < 2 ^ 32) (hh : h < 2 ^ 32) (hsx : sx < 2 ^ 32)
    (hsy : sy < 2 ^ 32) (hdx : dx < 2 ^ 63) (hdy : dy < 2 ^ 63) :
    parse (fmtInstr key w h sx sy (dx : Int) (dy : Int)) =
      .ok (key, { size := ⟨sx, sy⟩, src := ⟨w, h⟩
                , dst := ⟨(dx : Int), (dy : Int)⟩ }) := by
  have hfmt : fmtInstr key w h sx sy (dx : Int) (dy : Int) =
      key ++ ':' :: (natDigits w ++ ',' :: (natDigits h ++ '+' ::
        (natDigits sx ++ ',' :: (natDigits sy ++ '>' ::
          (natDigits dx ++ ',' :: natDigits dy))))) := by
    simp only [fmtInstr, intRepr_natCast]
  have e := wholeInstr_exact key w h sx sy dx dy hk hka hw hh hsx hsy hdx hdy
  simp only [parse, hfmt, e]

/-- Claim C7 (counterexample): the tuple `("a", 1, 1, 0, 0, 0, -1)` — valid
according to the claim, since `dx, dy` may be any integers — formats to
`"a:1,1+0,0>0,-1"`, whose parse aborts; it does not yield back the tuple. -/
theorem C7_counterexample :
    parse (fmtInstr ['a'] 1 1 0 0 0 (-1)) = .aborted := by decide

/-- Claim C7 (witness): the tuple `("a", 1, 2, 3, 4, 5, 6)` round-trips,
with `(1,2)` landing in the source-offset field and `(3,4)` in the size
field. -/
theorem C7_witness :
    parse (fmtInstr ['a'] 1 2 3 4 ((5 : Nat) : Int) ((6 : Nat) : Int)) =
      .ok (['a'], { size := ⟨3, 4⟩, src := ⟨1, 2⟩
                  , dst := ⟨((5 : Nat) : Int), ((6 : Nat) : Int)⟩ }) :=
  C7_theorem ['a'] 1 2 3 4 5 6 (by decide) (by decide) (by decide)
    (by decide) (by decide) (by decide) (by decide) (by decide)
